import Mathlib

/-!
Verification of the layered configuration resolver of `src/core/config.py`:
the `settings_customise_sources` source-chain builder and the
`_fill_linked_fields` link-backfill validator of `BaseSettings`, together
with the `refer_to_field` declaration helper.

Field values are modelled as `Option String`, with `none` as the empty
sentinel (`None` in the source). A source yields, per field name, either
`none` (the source does not provide the field) or `some w` where `w` is the
raw value it provides; `w` itself may be `none`, which models an explicit
`field=None` construction argument. The behaviour of the surrounding
pydantic-settings machinery (source merging, defaults, the dotenv file
source) is not part of the repository and is modelled from the spec, as
noted on the individual definitions; everything else is translated directly
from `src/core/config.py`.
-/

namespace AppConfig

/-- Raw value of a settings field: `none` is the empty sentinel (`None` in
the source), `some v` an actual string value. -/
abbrev FieldValue := Option String

/-- A settings source (a `PydanticBaseSettingsSource`): for a field name it
yields `none` when the field is absent from the source, or `some w` when the
source provides the raw value `w` (which may itself be the `None` sentinel,
e.g. an explicit `field=None` construction argument). -/
abbrev Source := String → Option FieldValue

/-- One declared field of a settings schema: its name, the optional
`refer_to` metadata attached by `refer_to_field` (stored in
`json_schema_extra` by the helper), and the declared default used when no
source provides the field. -/
structure FieldDecl where
  name : String
  referTo : Option String
  default : Option String
deriving DecidableEq

/-- Strips whitespace from both ends of a character list, modelling Python
`str.strip` as used on each path in `settings_customise_sources`. -/
def trimChars (cs : List Char) : List Char :=
  ((cs.dropWhile Char.isWhitespace).reverse.dropWhile Char.isWhitespace).reverse

/-- Models Python `str.split` with a one-character separator, on the
character list of the string: `pySplit sep "" = [[]]` and separators at the
ends produce empty pieces, exactly as in Python. -/
def pySplit (sep : Char) : List Char → List (List Char)
  | [] => [[]]
  | c :: rest =>
      let r := pySplit sep rest
      if c = sep then
        [] :: r
      else
        match r with
        | [] => [[c]]
        | g :: gs => (c :: g) :: gs

/-- Mirrors `[path.strip() for path in config_files_str.split(",")]` in
`settings_customise_sources`. -/
def parseConfigFiles (s : String) : List String :=
  (pySplit ',' s.data).map (fun cs => String.mk (trimChars cs))

/-- Lower-cases a name, modelling the case-insensitive key matching
(`case_sensitive=False` in `model_config`) applied to the dotenv sources. -/
def lowerName (s : String) : String :=
  String.mk (s.data.map Char.toLower)

/-- Modelled from the spec: the external `DotEnvSettingsSource` applied to
the given file system (path to parsed `KEY=VALUE` lines). A path missing on
disk is an empty source, per the spec sentence "A listed file path that does
not exist on disk must NOT raise an error; it is treated as an empty source
(yields no values)"; keys are matched case-insensitively to field names; a
later line overrides an earlier one for the same key within one file. -/
def fileSource (fs : String → Option (List (String × String))) (path : String) :
    Source :=
  fun n =>
    match fs path with
    | none => none
    | some entries =>
        (entries.reverse.find? (fun e => lowerName e.fst == lowerName n)).map
          (fun e => some e.snd)

/-- Cascading dotenv sources built from the `CONFIG_FILES` environment
variable, mirroring the `custom_dotenv_sources` list in
`settings_customise_sources`: an unset (`none`) or empty (falsy) variable
yields no sources; otherwise one source per listed path, in reversed list
order so that later-listed files appear earlier (higher priority). -/
def customSources (configFilesVar : Option String)
    (fs : String → Option (List (String × String))) : List Source :=
  match configFilesVar with
  | none => []
  | some s =>
      if s = "" then [] else ((parseConfigFiles s).reverse).map (fileSource fs)

/-- Mirrors the tuple returned by `settings_customise_sources`: init values,
then environment variables, then the cascading `CONFIG_FILES` sources, then
the default `.env` source, then file secrets; earlier entries take
priority. -/
def buildChain (init env : Source) (configFilesVar : Option String)
    (fs : String → Option (List (String × String))) (dotenv secrets : Source) :
    List Source :=
  init :: env :: customSources configFilesVar fs ++ [dotenv, secrets]

/-- Modelled from the spec: the merge performed by the external
pydantic-settings machinery over the returned source tuple, per the spec
sentence "the first source (in priority order) that yields a non-absent
value wins". -/
def chainLookup (chain : List Source) (n : String) : Option FieldValue :=
  match chain with
  | [] => none
  | src :: rest =>
      match src n with
      | some w => some w
      | none => chainLookup rest n

/-- Modelled from the spec: the post-merge value of every attribute of the
instance, before `_fill_linked_fields` runs. A declared field takes the
first source given raw value, or its declared default when every source is
absent; a name that is not a declared field has no value, so that
`getattr(self, k, None)` yields the sentinel for it. -/
def mergedValues (fields : List FieldDecl) (chain : List Source) :
    String → Option String :=
  fun n =>
    match fields.find? (fun fd => fd.name == n) with
    | none => none
    | some fd =>
        match chainLookup chain n with
        | some w => w
        | none => fd.default

/-- Mirrors `setattr(self, field_name, referred_value)` on the instance
state. -/
def setField (s : String → Option String) (n : String) (v : Option String) :
    String → Option String :=
  fun m => if m = n then v else s m

/-- One iteration of the loop body of `_fill_linked_fields` for a single
declared field: when the field carries truthy `refer_to` metadata, its
current value is the sentinel, and the referred attribute currently holds a
non-sentinel value, the referred value is copied in; otherwise the state is
unchanged. -/
def fillStep (s : String → Option String) (fd : FieldDecl) :
    String → Option String :=
  match fd.referTo with
  | none => s
  | some r =>
      if r = "" then s
      else if s fd.name = none ∧ s r ≠ none then setField s fd.name (s r) else s

/-- Mirrors `_fill_linked_fields`: fold the per-field step over the declared
fields in declaration order (the iteration order of
`self.__class__.model_fields.items()`). -/
def fillLinkedFields (fields : List FieldDecl) (s : String → Option String) :
    String → Option String :=
  fields.foldl fillStep s

/-- Whole construction pipeline of a settings instance: build the source
chain, merge it into per-field values, then run the `_fill_linked_fields`
validator once before the instance is returned. -/
def construct (fields : List FieldDecl) (init env : Source)
    (configFilesVar : Option String)
    (fs : String → Option (List (String × String))) (dotenv secrets : Source) :
    String → Option String :=
  fillLinkedFields fields
    (mergedValues fields (buildChain init env configFilesVar fs dotenv secrets))

/-- Source that provides nothing. -/
def emptySource : Source := fun _ => none

/-- File system with no files. -/
def emptyFileSystem : String → Option (List (String × String)) := fun _ => none

/-- Schema of the `SampleSettings` test fixture of the repository. -/
def sampleFields : List FieldDecl :=
  [FieldDecl.mk "main_field" none (some "default_value"),
   FieldDecl.mk "linked_field" (some "main_field") none,
   FieldDecl.mk "unlinked_field" none none,
   FieldDecl.mk "another_field" none (some "default_another")]

/-- Declarations of a pure link chain: each listed name refers to the name
before it, the first one referring to `prev`; none of them declares a
default. -/
def linkChain (prev : String) : List String → List FieldDecl
  | [] => []
  | n :: ns => FieldDecl.mk n (some prev) none :: linkChain n ns

theorem fill_cons (fd : FieldDecl) (rest : List FieldDecl)
    (s : String → Option String) :
    fillLinkedFields (fd :: rest) s = fillLinkedFields rest (fillStep s fd) := rfl

theorem fillStep_mk (s : String → Option String) (nm r : String)
    (d : Option String) (hr : r ≠ "") :
    fillStep s (FieldDecl.mk nm (some r) d)
      = if s nm = none ∧ s r ≠ none then setField s nm (s r) else s := by
  simp only [fillStep, if_neg hr]

theorem fillStep_cases (s : String → Option String) (fd : FieldDecl)
    (n : String) :
    fillStep s fd n = s n ∨
      (s fd.name = none ∧ n = fd.name ∧
        ∃ r, fd.referTo = some r ∧ s r ≠ none ∧ fillStep s fd n = s r) := by
  obtain ⟨nm, rt, d⟩ := fd
  cases rt with
  | none => exact Or.inl rfl
  | some r =>
      by_cases hr : r = ""
      · exact Or.inl (by simp [fillStep, hr])
      · rw [fillStep_mk s nm r d hr]
        by_cases hc : s nm = none ∧ s r ≠ none
        · rw [if_pos hc]
          by_cases hn : n = nm
          · exact Or.inr ⟨hc.1, hn, r, rfl, hc.2, by simp [setField, hn]⟩
          · exact Or.inl (by simp [setField, hn])
        · rw [if_neg hc]
          exact Or.inl rfl

theorem fill_keeps_some (fields : List FieldDecl) :
    ∀ (s : String → Option String) (n : String) (v : String),
      s n = some v → fillLinkedFields fields s n = some v := by
  induction fields with
  | nil => intro s n v h; exact h
  | cons fd rest ih =>
      intro s n v h
      rw [fill_cons]
      apply ih
      rcases fillStep_cases s fd n with heq | ⟨hfd, hn, _, _, _, _⟩
      · rw [heq]; exact h
      · rw [hn, hfd] at h; cases h

theorem fill_not_written (fields : List FieldDecl) :
    ∀ (s : String → Option String) (n : String),
      (∀ fd ∈ fields, fd.name = n → fd.referTo = none) →
      fillLinkedFields fields s n = s n := by
  induction fields with
  | nil => intro s n _; rfl
  | cons fd rest ih =>
      intro s n h
      rw [fill_cons]
      have hstep : fillStep s fd n = s n := by
        rcases fillStep_cases s fd n with heq | ⟨_, hn, r, hrt, _, _⟩
        · exact heq
        · have := h fd (List.mem_cons_self fd rest) hn.symm
          rw [this] at hrt; cases hrt
      rw [ih (fillStep s fd) n fun fd' h' => h fd' (List.mem_cons_of_mem fd h'),
        hstep]

theorem fill_change (fields : List FieldDecl) :
    ∀ (s : String → Option String) (n : String),
      fillLinkedFields fields s n ≠ s n →
      ∃ r, (∃ fd ∈ fields, fd.name = n ∧ fd.referTo = some r) ∧ s n = none ∧
        fillLinkedFields fields s n ≠ none ∧
        fillLinkedFields fields s n = fillLinkedFields fields s r := by
  induction fields with
  | nil => intro s n h; exact absurd rfl h
  | cons fd rest ih =>
      intro s n h
      rw [fill_cons] at h ⊢
      rcases fillStep_cases s fd n with heq | ⟨hfd, hn, r, hrt, hrne, hcopy⟩
      · have h' : fillLinkedFields rest (fillStep s fd) n ≠ fillStep s fd n := by
          rw [heq]; exact h
        obtain ⟨r, ⟨fd', hm, hname, hrt⟩, hnone, hfin, hfr⟩ :=
          ih (fillStep s fd) n h'
        exact ⟨r, ⟨fd', List.mem_cons_of_mem fd hm, hname, hrt⟩,
          heq ▸ hnone, hfin, hfr⟩
      · obtain ⟨v, hv⟩ : ∃ v, s r = some v := by
          cases hsr : s r with
          | none => exact absurd hsr hrne
          | some v => exact ⟨v, rfl⟩
        have hstepn : fillStep s fd n = some v := by rw [hcopy, hv]
        have hfinaln : fillLinkedFields rest (fillStep s fd) n = some v :=
          fill_keeps_some rest (fillStep s fd) n v hstepn
        have hrn : r ≠ n := by
          intro he
          rw [he, hn, hfd] at hv; cases hv
        have hstepr : fillStep s fd r = some v := by
          rcases fillStep_cases s fd r with heq2 | ⟨_, hr2, _, _, _, _⟩
          · rw [heq2]; exact hv
          · exact absurd (hr2.trans hn.symm) hrn
        have hfinalr : fillLinkedFields rest (fillStep s fd) r = some v :=
          fill_keeps_some rest (fillStep s fd) r v hstepr
        refine ⟨r, ⟨fd, List.mem_cons_self fd rest, hn.symm, hrt⟩, ?_, ?_, ?_⟩
        · rw [hn]; exact hfd
        · rw [hfinaln]; exact fun hc => Option.noConfusion hc
        · rw [hfinaln, hfinalr]

theorem chainLookup_cons (src : Source) (rest : List Source) (n : String) :
    chainLookup (src :: rest) n =
      match src n with
      | some w => some w
      | none => chainLookup rest n := rfl

theorem chainLookup_cons_some (src : Source) (rest : List Source) (n : String)
    (w : FieldValue) (h : src n = some w) :
    chainLookup (src :: rest) n = some w := by
  rw [chainLookup_cons, h]

theorem chainLookup_cons_none (src : Source) (rest : List Source) (n : String)
    (h : src n = none) :
    chainLookup (src :: rest) n = chainLookup rest n := by
  rw [chainLookup_cons, h]

theorem chainLookup_skip (xs : List Source) :
    ∀ (ys : List Source) (n : String), (∀ t ∈ xs, t n = none) →
      chainLookup (xs ++ ys) n = chainLookup ys n := by
  induction xs with
  | nil => intro ys n _; rfl
  | cons x xs ih =>
      intro ys n h
      rw [List.cons_append,
        chainLookup_cons_none x (xs ++ ys) n (h x (List.mem_cons_self x xs))]
      exact ih ys n fun t ht => h t (List.mem_cons_of_mem x ht)

theorem chainLookup_congr_tail (xs : List Source) :
    ∀ (ys zs : List Source) (n : String),
      chainLookup ys n = chainLookup zs n →
      chainLookup (xs ++ ys) n = chainLookup (xs ++ zs) n := by
  induction xs with
  | nil => intro ys zs n h; exact h
  | cons x xs ih =>
      intro ys zs n h
      rw [List.cons_append, List.cons_append, chainLookup_cons, chainLookup_cons]
      cases x n with
      | some w => rfl
      | none => exact ih ys zs n h

theorem mergedValues_of_lookup (fields : List FieldDecl) (chain : List Source)
    (n : String) (w : FieldValue)
    (hf : ∃ fd ∈ fields, fd.name = n) (hl : chainLookup chain n = some w) :
    mergedValues fields chain n = w := by
  obtain ⟨fd0, hmem, hname⟩ := hf
  have hsome : (fields.find? (fun fd => fd.name == n)).isSome := by
    rw [List.find?_isSome]
    exact ⟨fd0, hmem, by simp [hname]⟩
  obtain ⟨fd1, hfind⟩ := Option.isSome_iff_exists.mp hsome
  unfold mergedValues
  rw [hfind, hl]

theorem construct_of_lookup (fields : List FieldDecl) (init env : Source)
    (cfg : Option String) (fs : String → Option (List (String × String)))
    (de sec : Source) (n : String) (v : String)
    (hf : ∃ fd ∈ fields, fd.name = n)
    (hl : chainLookup (buildChain init env cfg fs de sec) n = some (some v)) :
    construct fields init env cfg fs de sec n = some v := by
  unfold construct
  exact fill_keeps_some fields _ n v
    (mergedValues_of_lookup fields _ n (some v) hf hl)

/-- Claim C8: when the `CONFIG_FILES` environment variable is unset (`none`)
or the empty string, no cascading file sources are added, and the chain is
exactly explicit construction values, environment variables, the default
configuration file, and file secrets, in that priority order. -/
theorem c8_no_cascading_when_unset :
    ∀ (init env : Source) (fs : String → Option (List (String × String)))
      (de sec : Source),
      buildChain init env none fs de sec = [init, env, de, sec]
    ∧ buildChain init env (some "") fs de sec = [init, env, de, sec] := by
  intro init env fs de sec
  exact ⟨rfl, by simp [buildChain, customSources]⟩

/-- Claim C3: the source chain is exactly init values, environment, the
cascading `CONFIG_FILES` sources, the default dotenv file and file secrets
in that order; a value yielded by an earlier source is never overwritten by
any later source; and in particular an environment-variable value is never
overwritten by any file source: whenever the environment yields a value for
a declared field and no explicit init value is given, the constructed
instance holds the environment value whatever the file sources contain. -/
theorem c3_priority_order :
    ∀ (init env : Source) (cfg : Option String)
      (fs : String → Option (List (String × String))) (de sec : Source),
      buildChain init env cfg fs de sec
        = init :: env :: customSources cfg fs ++ [de, sec]
    ∧ (∀ (ahead : List Source) (src : Source) (rest : List Source)
        (n : String) (w : FieldValue),
        src n = some w → (∀ t ∈ ahead, t n = none) →
        chainLookup (ahead ++ src :: rest) n = some w)
    ∧ (∀ (fields : List FieldDecl) (n : String) (v : String),
        env n = some (some v) → init n = none →
        (∃ fd ∈ fields, fd.name = n) →
        construct fields init env cfg fs de sec n = some v) := by
  intro init env cfg fs de sec
  refine ⟨rfl, ?_, ?_⟩
  · intro ahead src rest n w hsrc hnone
    rw [chainLookup_skip ahead (src :: rest) n hnone]
    exact chainLookup_cons_some src rest n w hsrc
  · intro fields n v henv hinit hf
    apply construct_of_lookup fields init env cfg fs de sec n v hf
    unfold buildChain
    rw [List.cons_append, List.cons_append, chainLookup_cons_none init _ n hinit]
    exact chainLookup_cons_some env _ n (some v) henv

/-- Witness for C3: with the sample schema, `MAIN_FIELD=env_value` in the
environment and a `CONFIG_FILES` file containing `MAIN_FIELD=file_value`,
the instance resolves `main_field` to the environment value. -/
theorem c3_priority_order_witness :
    construct sampleFields emptySource
      (fun m => if m = "main_field" then some (some "env_value") else none)
      (some "config.env")
      (fun p => if p = "config.env" then some [("MAIN_FIELD", "file_value")]
        else none)
      emptySource emptySource "main_field" = some "env_value" :=
  (c3_priority_order emptySource
    (fun m => if m = "main_field" then some (some "env_value") else none)
    (some "config.env")
    (fun p => if p = "config.env" then some [("MAIN_FIELD", "file_value")]
      else none)
    emptySource emptySource).2.2 sampleFields "main_field" "env_value"
    (by decide) (by decide) (by decide)

/-- Claim C6, counterexample: a field value explicitly supplied as a
construction argument is not always kept. Supplying the explicit argument
`linked_field=None` (the raw value `none`) alongside `main_field="m"` yields
an instance whose `linked_field` is `"m"`: the Field Linker pass overwrote
the explicitly supplied `None`, exactly as the property-based test of the
repository expects. -/
theorem c6_explicit_none_overwritten :
    (fun m => if m = "main_field" then some (some "m")
      else if m = "linked_field" then some none else none : Source)
        "linked_field" = some none
  ∧ construct sampleFields
      (fun m => if m = "main_field" then some (some "m")
        else if m = "linked_field" then some none else none)
      emptySource none emptyFileSystem emptySource emptySource
      "linked_field" = some "m" := by
  exact ⟨rfl, by decide⟩

/-- Claim C6 as amended: a field value explicitly supplied as a non-`None`
construction argument is never overwritten by environment variables, file
sources, or the Field Linker pass; the constructed instance holds exactly
the supplied value. (An explicitly supplied `None` shadows the other
sources in the merge but may still be backfilled by the Field Linker.) -/
theorem c6_explicit_value_wins :
    ∀ (fields : List FieldDecl) (init env : Source) (cfg : Option String)
      (fs : String → Option (List (String × String))) (de sec : Source)
      (n : String) (v : String),
      init n = some (some v) → (∃ fd ∈ fields, fd.name = n) →
      construct fields init env cfg fs de sec n = some v := by
  intro fields init env cfg fs de sec n v hinit hf
  apply construct_of_lookup fields init env cfg fs de sec n v hf
  unfold buildChain
  rw [List.cons_append]
  exact chainLookup_cons_some init _ n (some v) hinit

/-- Witness for the amended C6: an explicit `linked_field="explicit"`
survives a competing environment value, a competing `CONFIG_FILES` value and
the link to `main_field`. -/
theorem c6_explicit_value_wins_witness :
    construct sampleFields
      (fun m => if m = "linked_field" then some (some "explicit") else none)
      (fun m => if m = "linked_field" then some (some "env_value") else none)
      (some "config.env")
      (fun p => if p = "config.env" then some [("LINKED_FIELD", "file_value")]
        else none)
      emptySource emptySource "linked_field" = some "explicit" :=
  c6_explicit_value_wins sampleFields
    (fun m => if m = "linked_field" then some (some "explicit") else none)
    (fun m => if m = "linked_field" then some (some "env_value") else none)
    (some "config.env")
    (fun p => if p = "config.env" then some [("LINKED_FIELD", "file_value")]
      else none)
    emptySource emptySource "linked_field" "explicit" (by decide) (by decide)

/-- Claim C1: contrary to the claim (and to the repository test
`test_invalid_reference`), link metadata naming a nonexistent field is a
silent no-op, not a construction failure. `_fill_linked_fields` reads the
referred attribute with `getattr(self, refer_key, None)`, so for the schema
holding only `bad_field = refer_to_field(refer_to="nonexistent_field")`
construction completes and leaves `bad_field` at the sentinel `None`; no
validation error is produced anywhere in the translated code. -/
theorem c1_missing_reference_silent :
    construct [FieldDecl.mk "bad_field" (some "nonexistent_field") none]
      emptySource emptySource none emptyFileSystem emptySource emptySource
      "bad_field" = none
  ∧ fillLinkedFields [FieldDecl.mk "bad_field" (some "nonexistent_field") none]
      (fun _ => none)
      = (fun _ => none) := by
  constructor
  · decide
  · funext m
    show fillStep (fun _ => none) (FieldDecl.mk "bad_field"
      (some "nonexistent_field") none) m = none
    rw [fillStep_mk _ _ _ _ (by decide)]
    simp

/-- Claim C9: contrary to the claim (and to the docstring of
`refer_to_field`, which says the default is used only "if no link is
available"), a non-`None` default on a linked field shadows the link. With
`a` defaulting to `"v"` and `b = refer_to_field(refer_to="a", default="d")`
and no source supplying either field, the default `"d"` fills `b` before
`_fill_linked_fields` runs, so the link is skipped and `b` resolves to
`"d"`, not to the referenced value `"v"`. -/
theorem c9_default_shadows_link :
    construct [FieldDecl.mk "a" none (some "v"),
        FieldDecl.mk "b" (some "a") (some "d")]
      emptySource emptySource none emptyFileSystem emptySource emptySource
      "b" = some "d"
  ∧ construct [FieldDecl.mk "a" none (some "v"),
        FieldDecl.mk "b" (some "a") (some "d")]
      emptySource emptySource none emptyFileSystem emptySource emptySource
      "b" ≠ some "v" := by
  exact ⟨by decide, by decide⟩

/-- Claim C4: among the `CONFIG_FILES` paths, the provider chain reads the
files in reverse of the listed order, so for every field provided by a
listed file `p` and by no file listed after `p` (and by neither init values
nor the environment), the instance takes the value that `p` provides — the
last-listed file wins on overlapping keys and keys only in earlier-listed
files keep their values. -/
theorem c4_cascading_last_wins :
    ∀ (init env : Source) (s : String) (pre post : List String) (p : String)
      (fs : String → Option (List (String × String))) (de sec : Source)
      (fields : List FieldDecl) (n : String) (v : String),
      s ≠ "" →
      parseConfigFiles s = pre ++ p :: post →
      init n = none → env n = none →
      fileSource fs p n = some (some v) →
      (∀ q ∈ post, fileSource fs q n = none) →
      (∃ fd ∈ fields, fd.name = n) →
      construct fields init env (some s) fs de sec n = some v := by
  intro init env s pre post p fs de sec fields n v hs hparse hinit henv hp
    hpost hf
  apply construct_of_lookup fields init env (some s) fs de sec n v hf
  have hA : ∀ t ∈ post.reverse.map (fileSource fs), t n = none := by
    intro t ht
    rw [List.mem_map] at ht
    obtain ⟨q, hq, rfl⟩ := ht
    exact hpost q (List.mem_reverse.mp hq)
  simp only [buildChain, customSources]
  rw [if_neg hs, hparse, List.reverse_append, List.reverse_cons]
  simp only [List.map_append, List.map_cons, List.map_nil, List.cons_append,
    List.append_assoc, List.nil_append]
  rw [chainLookup_cons_none init _ n hinit, chainLookup_cons_none env _ n henv,
    chainLookup_skip _ _ n hA]
  exact chainLookup_cons_some _ _ n (some v) hp

/-- File system of the repository test `test_multiple_config_files`:
`config1.env` holds `MAIN_FIELD=file1` and `ANOTHER_FIELD=file1_only`,
`config2.env` holds `MAIN_FIELD=file2`. -/
def twoFilesSystem : String → Option (List (String × String)) :=
  fun p =>
    if p = "config1.env" then
      some [("MAIN_FIELD", "file1"), ("ANOTHER_FIELD", "file1_only")]
    else if p = "config2.env" then some [("MAIN_FIELD", "file2")] else none

/-- Witness for C4: with `CONFIG_FILES="config1.env,config2.env"` the
instance resolves `main_field` to `"file2"` (last-listed file wins) and
`another_field` to `"file1_only"` (key only in the earlier file is kept). -/
theorem c4_cascading_last_wins_witness :
    construct sampleFields emptySource emptySource
      (some "config1.env,config2.env") twoFilesSystem emptySource emptySource
      "main_field" = some "file2"
  ∧ construct sampleFields emptySource emptySource
      (some "config1.env,config2.env") twoFilesSystem emptySource emptySource
      "another_field" = some "file1_only" :=
  ⟨c4_cascading_last_wins emptySource emptySource "config1.env,config2.env"
      ["config1.env"] [] "config2.env" twoFilesSystem emptySource emptySource
      sampleFields "main_field" "file2" (by decide) (by decide) rfl rfl
      (by decide) (by decide) (by decide),
   c4_cascading_last_wins emptySource emptySource "config1.env,config2.env"
      [] ["config2.env"] "config1.env" twoFilesSystem emptySource emptySource
      sampleFields "another_field" "file1_only" (by decide) (by decide) rfl rfl
      (by decide) (by decide) (by decide)⟩

/-- Claim C7: a `CONFIG_FILES` path that is missing from the file system is
an empty source yielding no values, and when every listed path is missing,
construction behaves exactly as if `CONFIG_FILES` were unset — no failure,
and every field still resolves from the remaining sources. -/
theorem c7_missing_files_ignored :
    ∀ (init env : Source) (s : String)
      (fs : String → Option (List (String × String))) (de sec : Source)
      (fields : List FieldDecl) (n : String),
      (∀ q ∈ parseConfigFiles s, fs q = none) →
      (∀ (p m : String), fs p = none → fileSource fs p m = none)
    ∧ construct fields init env (some s) fs de sec n
        = construct fields init env none fs de sec n := by
  intro init env s fs de sec fields n hmiss
  have hempty : ∀ (p m : String), fs p = none → fileSource fs p m = none := by
    intro p m hp
    simp [fileSource, hp]
  refine ⟨hempty, ?_⟩
  have hnone : ∀ t ∈ customSources (some s) fs, ∀ m, t m = none := by
    intro t ht m
    simp only [customSources] at ht
    by_cases hs : s = ""
    · rw [if_pos hs] at ht; cases ht
    · rw [if_neg hs, List.mem_map] at ht
      obtain ⟨q, hq, rfl⟩ := ht
      exact hempty q m (hmiss q (List.mem_reverse.mp hq))
  have hchain : ∀ m,
      chainLookup (buildChain init env (some s) fs de sec) m
        = chainLookup (buildChain init env none fs de sec) m := by
    intro m
    show chainLookup ([init, env] ++ (customSources (some s) fs ++ [de, sec])) m
      = chainLookup ([init, env] ++ (customSources none fs ++ [de, sec])) m
    apply chainLookup_congr_tail
    show chainLookup (customSources (some s) fs ++ [de, sec]) m
      = chainLookup [de, sec] m
    exact chainLookup_skip _ _ m fun t ht => hnone t ht m
  have hmv : mergedValues fields (buildChain init env (some s) fs de sec)
      = mergedValues fields (buildChain init env none fs de sec) := by
    funext m
    unfold mergedValues
    rw [hchain m]
  unfold construct
  rw [hmv]

/-- Witness for C7: with `CONFIG_FILES="nonexistent.env"` over an empty file
system, construction still resolves `main_field` to its default. -/
theorem c7_missing_files_ignored_witness :
    construct sampleFields emptySource emptySource (some "nonexistent.env")
      emptyFileSystem emptySource emptySource "main_field"
      = some "default_value" :=
  ((c7_missing_files_ignored emptySource emptySource "nonexistent.env"
      emptyFileSystem emptySource emptySource sampleFields "main_field"
      (by decide)).2).trans (by decide)

/-- Claim C5: for a declared field with link metadata `refer_to = r`
(occurring once in the schema), writing `before` for the state the pass has
built when it reaches the field: if the post-merge value of the field is the
sentinel and the referred field currently holds a non-sentinel value, that
value is copied in; if the post-merge value is non-sentinel the link is not
applied; and if the referred field is also unset the field stays at the
sentinel. -/
theorem c5_link_fill_conditions :
    ∀ (pre post : List FieldDecl) (nm r : String) (d : Option String)
      (s : String → Option String),
      ((pre ++ FieldDecl.mk nm (some r) d :: post).map FieldDecl.name).Nodup →
      r ≠ "" →
      (s nm = none → fillLinkedFields pre s r ≠ none →
        fillLinkedFields (pre ++ FieldDecl.mk nm (some r) d :: post) s nm
          = fillLinkedFields pre s r)
    ∧ (s nm ≠ none →
        fillLinkedFields (pre ++ FieldDecl.mk nm (some r) d :: post) s nm
          = s nm)
    ∧ (s nm = none → fillLinkedFields pre s r = none →
        fillLinkedFields (pre ++ FieldDecl.mk nm (some r) d :: post) s nm
          = none) := by
  intro pre post nm r d s hnd hr
  rw [List.map_append, List.map_cons] at hnd
  obtain ⟨h1, h2, hdisj⟩ := List.nodup_append.mp hnd
  have hnm_pre : ∀ fd' ∈ pre, fd'.name ≠ nm := by
    intro fd' hm he
    have hmm : fd'.name ∈ pre.map FieldDecl.name :=
      List.mem_map_of_mem FieldDecl.name hm
    exact hdisj (he ▸ hmm) (List.mem_cons_self _ _)
  have hnm_post : ∀ fd' ∈ post, fd'.name ≠ nm := by
    intro fd' hm he
    have hmm : fd'.name ∈ post.map FieldDecl.name :=
      List.mem_map_of_mem FieldDecl.name hm
    exact (List.nodup_cons.mp h2).1 (he ▸ hmm)
  have hpre_cond : ∀ fd' ∈ pre, fd'.name = nm → fd'.referTo = none :=
    fun fd' hm he => absurd he (hnm_pre fd' hm)
  have hpost_cond : ∀ fd' ∈ post, fd'.name = nm → fd'.referTo = none :=
    fun fd' hm he => absurd he (hnm_post fd' hm)
  have hb : fillLinkedFields pre s nm = s nm :=
    fill_not_written pre s nm hpre_cond
  have hsplit : fillLinkedFields (pre ++ FieldDecl.mk nm (some r) d :: post) s
      = fillLinkedFields post
          (fillStep (fillLinkedFields pre s) (FieldDecl.mk nm (some r) d)) := by
    unfold fillLinkedFields
    rw [List.foldl_append]
    rfl
  have hstep := fillStep_mk (fillLinkedFields pre s) nm r d hr
  refine ⟨?_, ?_, ?_⟩
  · intro h0 hrne
    have hcond : fillLinkedFields pre s nm = none
        ∧ fillLinkedFields pre s r ≠ none := ⟨hb.trans h0, hrne⟩
    rw [hsplit, fill_not_written post _ nm hpost_cond, hstep, if_pos hcond]
    simp [setField]
  · intro h0
    have hcond : ¬(fillLinkedFields pre s nm = none
        ∧ fillLinkedFields pre s r ≠ none) := fun hc => h0 (hb.symm.trans hc.1)
    rw [hsplit, fill_not_written post _ nm hpost_cond, hstep, if_neg hcond]
    exact hb
  · intro h0 hrnone
    have hcond : ¬(fillLinkedFields pre s nm = none
        ∧ fillLinkedFields pre s r ≠ none) := fun hc => hc.2 hrnone
    rw [hsplit, fill_not_written post _ nm hpost_cond, hstep, if_neg hcond]
    exact hb.trans h0

/-- Witness for C5: in the sample schema with post-merge state
`main_field = "source_value"` and `linked_field` unset, the pass copies the
referred value into `linked_field`. -/
theorem c5_link_fill_conditions_witness :
    fillLinkedFields
      [FieldDecl.mk "main_field" none (some "default_value"),
       FieldDecl.mk "linked_field" (some "main_field") none]
      (fun m => if m = "main_field" then some "source_value" else none)
      "linked_field" = some "source_value" :=
  ((c5_link_fill_conditions
      [FieldDecl.mk "main_field" none (some "default_value")] []
      "linked_field" "main_field" none
      (fun m => if m = "main_field" then some "source_value" else none)
      (by decide) (by decide)).1 (by decide) (by decide)).trans (by decide)

/-- Claim C10: the `_fill_linked_fields` pass leaves every field without
link metadata at its post-merge value, never changes a field whose
post-merge value is non-sentinel, never clears a value back to the
sentinel, and when it does change a field it is a linked field whose
post-merge value was the sentinel, and the field receives a non-sentinel
value that equals the final value of its referred field. -/
theorem c10_frame :
    ∀ (fields : List FieldDecl) (s : String → Option String) (n : String),
      ((∀ fd ∈ fields, fd.name = n → fd.referTo = none) →
        fillLinkedFields fields s n = s n)
    ∧ (∀ v, s n = some v → fillLinkedFields fields s n = some v)
    ∧ (fillLinkedFields fields s n = none → s n = none)
    ∧ (fillLinkedFields fields s n ≠ s n →
        ∃ r, (∃ fd ∈ fields, fd.name = n ∧ fd.referTo = some r)
          ∧ s n = none ∧ fillLinkedFields fields s n ≠ none
          ∧ fillLinkedFields fields s n = fillLinkedFields fields s r) := by
  intro fields s n
  refine ⟨fill_not_written fields s n, fun v => fill_keeps_some fields s n v,
    ?_, fill_change fields s n⟩
  intro hfin
  cases hsn : s n with
  | none => rfl
  | some v =>
      rw [fill_keeps_some fields s n v hsn] at hfin
      cases hfin

/-- Witness for C10: a field without link metadata keeps its post-merge
value through the pass. -/
theorem c10_frame_witness :
    fillLinkedFields [FieldDecl.mk "unlinked_field" none none]
      (fun m => if m = "unlinked_field" then some "standalone" else none)
      "unlinked_field" = some "standalone" :=
  ((c10_frame [FieldDecl.mk "unlinked_field" none none]
      (fun m => if m = "unlinked_field" then some "standalone" else none)
      "unlinked_field").1 (by decide)).trans (by decide)

/-- Claim C2, counterexample: transitive resolution does not hold regardless
of declaration order. Declaring the chain as `field_c` (linked to
`field_b`), then `field_b` (linked to `field_a`), then `field_a` with
default `"v"`, and constructing with no other input, the single
declaration-order pass visits `field_c` while `field_b` is still unset:
`field_c` stays `None` instead of resolving to `"v"` (while `field_b` does
get `"v"`). -/
theorem c2_decl_order_counterexample :
    construct [FieldDecl.mk "field_c" (some "field_b") none,
        FieldDecl.mk "field_b" (some "field_a") none,
        FieldDecl.mk "field_a" none (some "v")]
      emptySource emptySource none emptyFileSystem emptySource emptySource
      "field_c" = none
  ∧ construct [FieldDecl.mk "field_c" (some "field_b") none,
        FieldDecl.mk "field_b" (some "field_a") none,
        FieldDecl.mk "field_a" none (some "v")]
      emptySource emptySource none emptyFileSystem emptySource emptySource
      "field_b" = some "v" := ⟨by decide, by decide⟩

theorem linkChain_mem :
    ∀ (names : List String) (prev : String) (fd : FieldDecl),
      fd ∈ linkChain prev names → fd.default = none ∧ fd.name ∈ names := by
  intro names
  induction names with
  | nil => intro prev fd h; cases h
  | cons m ms ih =>
      intro prev fd h
      simp only [linkChain] at h
      rcases List.mem_cons.mp h with he | hm
      · subst he; exact ⟨rfl, List.mem_cons_self _ _⟩
      · obtain ⟨hd, hn⟩ := ih m fd hm
        exact ⟨hd, List.mem_cons_of_mem _ hn⟩

theorem fill_linkChain :
    ∀ (names : List String) (prev v : String) (s : String → Option String),
      s prev = some v → (∀ n ∈ names, s n = none) → names.Nodup →
      prev ≠ "" → (∀ n ∈ names, n ≠ "") →
      ∀ n ∈ names, fillLinkedFields (linkChain prev names) s n = some v := by
  intro names
  induction names with
  | nil => intro prev v s _ _ _ _ _ n hn; cases hn
  | cons m ms ih =>
      intro prev v s hprev hnone hnd hprevne hne n hn
      have hm0 : s m = none := hnone m (List.mem_cons_self m ms)
      have hcond : s m = none ∧ s prev ≠ none :=
        ⟨hm0, by rw [hprev]; exact fun h => Option.noConfusion h⟩
      have hstep : fillLinkedFields (linkChain prev (m :: ms)) s
          = fillLinkedFields (linkChain m ms) (setField s m (s prev)) := by
        show fillLinkedFields
          (FieldDecl.mk m (some prev) none :: linkChain m ms) s = _
        rw [fill_cons, fillStep_mk s m prev none hprevne, if_pos hcond]
      have hs'm : setField s m (s prev) m = some v := by
        simp [setField, hprev]
      have hs'ms : ∀ k ∈ ms, setField s m (s prev) k = none := by
        intro k hk
        have hkm : k ≠ m := fun he => (List.nodup_cons.mp hnd).1 (he ▸ hk)
        simp only [setField, if_neg hkm]
        exact hnone k (List.mem_cons_of_mem m hk)
      rw [hstep]
      rcases List.mem_cons.mp hn with he | hmem
      · subst he
        exact fill_keeps_some (linkChain n ms) _ n v hs'm
      · exact ih m v (setField s m (s prev)) hs'm hs'ms
          (List.nodup_cons.mp hnd).2 (hne m (List.mem_cons_self m ms))
          (fun k hk => hne k (List.mem_cons_of_mem m hk)) n hmem

/-- Claim C2 as amended: chained links of arbitrary depth resolve
transitively in the single pass provided each linked field is declared after
the field it refers to (the declaration order of the repository test): with
the root declared first with default `v` and each later field linked to its
predecessor, and no other input, every field of the chain resolves to `v`.
(With a linked field declared before its referent the pass leaves it unset,
see the counterexample.) -/
theorem c2_chain_dependency_order :
    ∀ (root v : String) (rest : List String),
      (root :: rest).Nodup → root ≠ "" → (∀ n ∈ rest, n ≠ "") →
      ∀ n ∈ root :: rest,
        construct (FieldDecl.mk root none (some v) :: linkChain root rest)
          emptySource emptySource none emptyFileSystem emptySource emptySource
          n = some v := by
  intro root v rest hnd hroot hne n hn
  have hfind : (FieldDecl.mk root none (some v) :: linkChain root rest).find?
      (fun fd => fd.name == root) = some (FieldDecl.mk root none (some v)) :=
    List.find?_cons_of_pos _ (by simp)
  have hmroot : mergedValues
      (FieldDecl.mk root none (some v) :: linkChain root rest)
      (buildChain emptySource emptySource none emptyFileSystem emptySource
        emptySource) root = some v := by
    unfold mergedValues
    rw [hfind]
    rfl
  have hmrest : ∀ k ∈ rest, mergedValues
      (FieldDecl.mk root none (some v) :: linkChain root rest)
      (buildChain emptySource emptySource none emptyFileSystem emptySource
        emptySource) k = none := by
    intro k hk
    have hrk : ¬((FieldDecl.mk root none (some v)).name == k) = true := by
      simp only [beq_iff_eq]
      exact fun he => (List.nodup_cons.mp hnd).1 (he ▸ hk)
    have hskip : (FieldDecl.mk root none (some v) :: linkChain root rest).find?
        (fun fd => fd.name == k)
        = (linkChain root rest).find? (fun fd => fd.name == k) :=
      List.find?_cons_of_neg _ hrk
    cases hfind2 : (linkChain root rest).find? (fun fd => fd.name == k) with
    | none =>
        unfold mergedValues
        rw [hskip, hfind2]
    | some fd1 =>
        have hdef : fd1.default = none :=
          (linkChain_mem rest root fd1 (List.mem_of_find?_eq_some hfind2)).1
        unfold mergedValues
        rw [hskip, hfind2]
        exact hdef
  rcases List.mem_cons.mp hn with he | hmem
  · subst he
    exact fill_keeps_some
      (FieldDecl.mk n none (some v) :: linkChain n rest) _ n v hmroot
  · exact fill_linkChain rest root v
      (mergedValues (FieldDecl.mk root none (some v) :: linkChain root rest)
        (buildChain emptySource emptySource none emptyFileSystem emptySource
          emptySource))
      hmroot hmrest (List.nodup_cons.mp hnd).2 hroot hne n hmem

/-- Witness for the amended C2: the three-field chain of the repository
test, declared in dependency order, resolves `field_c` to `"v"`. -/
theorem c2_chain_dependency_order_witness :
    construct (FieldDecl.mk "field_a" none (some "v")
        :: linkChain "field_a" ["field_b", "field_c"])
      emptySource emptySource none emptyFileSystem emptySource emptySource
      "field_c" = some "v" :=
  c2_chain_dependency_order "field_a" "v" ["field_b", "field_c"] (by decide)
    (by decide) (by decide) "field_c" (by decide)

end AppConfig
